import Mathlib

/-!
Shallow embedding of the diff-chunking and prompt-construction core of the
`flutter-ai-review-bot` repository (files `scripts/reviewer/diff_chunker.py`
and `scripts/reviewer/prompt_builder.py`), together with proofs settling the
specification claims about it.

Python strings are modelled as `List Char`; Python's `str.split(sep)` with an
explicit one-character separator is modelled by `splitOnChar`; slicing
`s[a:b]` (with `0 ≤ a ≤ b`) is `(s.drop a).take (b - a)`.
-/

/-- Characters of a Lean string literal, used to transcribe the Python string
literals of the source. -/
def pyStr (s : String) : List Char := s.data

/-- Python `text.split(c)` for a single-character separator `c`: splits at every
occurrence of `c`, keeping empty fields, and yields `[""]` on the empty string. -/
def splitOnChar (c : Char) : List Char → List (List Char)
  | [] => [[]]
  | x :: xs =>
    if x = c then [] :: splitOnChar c xs
    else
      match splitOnChar c xs with
      | [] => [[x]]
      | y :: ys => (x :: y) :: ys

/-- A file boundary record produced by the scanner loops of
`DiffChunker._extract_file_boundaries` and `PromptBuilder._truncate_diff_smartly`:
the Python dict with keys `position`, `line_num`, `file_path`. -/
structure FileBoundary where
  position : Nat
  line_num : Nat
  file_path : List Char
deriving DecidableEq, Repr

/-- Path extraction of `DiffChunker._extract_file_boundaries` (diff_chunker.py
lines 166-171): `parts = line.split(' ')`, the fourth field (`parts[3]`) when
there are at least four fields, else `"unknown"`, with a leading `b/` removed. -/
def extractPath (line : List Char) : List Char :=
  let parts := splitOnChar ' ' line
  let fp := parts.getD 3 (pyStr "unknown")
  if (pyStr "b/").isPrefixOf fp then fp.drop 2 else fp

/-- The scanning loop of `DiffChunker._extract_file_boundaries` over the list of
lines, carrying the line index `i` and the running character offset `pos`
(`current_pos` in the Python, advanced by `len(line) + 1` per line). -/
def extractBoundariesAux : List (List Char) → Nat → Nat → List FileBoundary
  | [], _, _ => []
  | l :: ls, i, pos =>
    if (pyStr "diff --git ").isPrefixOf l then
      ⟨pos, i, extractPath l⟩ :: extractBoundariesAux ls (i + 1) (pos + l.length + 1)
    else
      extractBoundariesAux ls (i + 1) (pos + l.length + 1)

/-- `DiffChunker._extract_file_boundaries` (diff_chunker.py lines 151-181). -/
def extract_file_boundaries (t : List Char) : List FileBoundary :=
  extractBoundariesAux (splitOnChar '\n' t) 0 0

/-- `DiffChunker.should_chunk` (diff_chunker.py lines 59-80), with the
constants `SINGLE_PASS_FILE_THRESHOLD = 5` and `SINGLE_PASS_CHAR_THRESHOLD = 30000`. -/
def should_chunk (t : List Char) : Bool :=
  let files := extract_file_boundaries t
  if files.length ≤ 5 then false
  else if t.length ≤ 30000 then false
  else true

/-- `DiffChunk` (diff_chunker.py lines 12-27). -/
structure DiffChunk where
  content : List Char
  files : List (List Char)
  chunk_index : Nat
  total_chunks : Nat
deriving DecidableEq, Repr

/-- End position of the segment for the file whose successors in the boundary
list are `rest`: the next boundary's position, or the text length for the last
file (diff_chunker.py lines 111-114). -/
def nextEndPos (t : List Char) : List FileBoundary → Nat
  | [] => t.length
  | g :: _ => g.position

/-- The slice `diff_text[start_pos:end_pos]` for the file at the head of the
remaining boundary list (diff_chunker.py lines 110-116). -/
def fileSlice (t : List Char) (f : FileBoundary) (rest : List FileBoundary) : List Char :=
  (t.drop f.position).take (nextEndPos t rest - f.position)

/-- The accumulation loop of `DiffChunker.chunk_diff` (diff_chunker.py lines
108-142): walks the boundary list; a running chunk is closed when it is
nonempty and appending the file's segment would exceed `MAX_CHUNK_SIZE =
40000`; the closed chunks carry `total_chunks = 0`, fixed up afterwards. -/
def chunkLoop (t : List Char) : List FileBoundary → List Char → List (List Char) → Nat → List DiffChunk
  | [], cur, curFs, idx =>
    if cur = [] then [] else [⟨cur, curFs, idx, 0⟩]
  | f :: rest, cur, curFs, idx =>
    let fileDiff := fileSlice t f rest
    if cur ≠ [] ∧ 40000 < cur.length + fileDiff.length then
      ⟨cur, curFs, idx, 0⟩ :: chunkLoop t rest fileDiff [f.file_path] (idx + 1)
    else
      chunkLoop t rest (cur ++ fileDiff) (curFs ++ [f.file_path]) idx

/-- `DiffChunker.chunk_diff` (diff_chunker.py lines 82-149): no boundaries gives
one chunk with file list `["unknown"]`; a small diff gives one chunk listing all
discovered paths; otherwise the accumulation loop runs and every produced
chunk's `total_chunks` is set to the final count. -/
def chunk_diff (t : List Char) : List DiffChunk :=
  let files := extract_file_boundaries t
  if files = [] then [⟨t, [pyStr "unknown"], 0, 1⟩]
  else if should_chunk t = false then [⟨t, files.map (·.file_path), 0, 1⟩]
  else
    let cs := chunkLoop t files [] [] 0
    cs.map fun c => ⟨c.content, c.files, c.chunk_index, cs.length⟩

/-- Path extraction of `PromptBuilder._extract_file_path` (prompt_builder.py
lines 285-297): the fourth space-separated field, or `"unknown"`; unlike the
chunker's scanner it does not strip the `b/`. -/
def extract_file_path (line : List Char) : List Char :=
  let parts := splitOnChar ' ' line
  parts.getD 3 (pyStr "unknown")

/-- The marker-collection loop of `PromptBuilder._truncate_diff_smartly`
(prompt_builder.py lines 228-239). -/
def fileMarkersAux : List (List Char) → Nat → Nat → List FileBoundary
  | [], _, _ => []
  | l :: ls, i, pos =>
    if (pyStr "diff --git ").isPrefixOf l then
      ⟨pos, i, extract_file_path l⟩ :: fileMarkersAux ls (i + 1) (pos + l.length + 1)
    else
      fileMarkersAux ls (i + 1) (pos + l.length + 1)

/-- The `file_markers` list computed by `PromptBuilder._truncate_diff_smartly`. -/
def file_markers (t : List Char) : List FileBoundary :=
  fileMarkersAux (splitOnChar '\n' t) 0 0

/-- The `last_complete_file_idx` loop of `PromptBuilder._truncate_diff_smartly`
(prompt_builder.py lines 248-259): the greatest index whose condition holds
(`none` models Python's `-1`): for a non-final marker, the next marker's
position is `≤ max_length`; for the final marker, its own position is
`< max_length`. -/
def lastCompleteIdx (maxLength : Nat) : List FileBoundary → Nat → Option Nat
  | [], _ => none
  | [m], i => if m.position < maxLength then some i else none
  | _ :: n :: rest, i =>
    match lastCompleteIdx maxLength (n :: rest) (i + 1) with
    | some j => some j
    | none => if n.position ≤ maxLength then some i else none

/-- Python whitespace test for `str.rstrip()` / `str.strip()` on the ASCII
whitespace characters that can occur in a diff. -/
def isPySpace (c : Char) : Bool :=
  c = ' ' || c = '\n' || c = '\t' || c = '\r' || c = '\x0b' || c = '\x0c'

/-- Python `text.rstrip()`: remove trailing whitespace. -/
def rstripL (l : List Char) : List Char :=
  (l.reverse.dropWhile isPySpace).reverse

/-- `PromptBuilder._truncate_diff_smartly` (prompt_builder.py lines 214-283). -/
def truncate_diff_smartly (t : List Char) (maxLength : Nat) : List Char × Bool :=
  if t.length ≤ maxLength then (t, false)
  else
    let markers := file_markers t
    if markers = [] then (t.take maxLength, true)
    else
      match lastCompleteIdx maxLength markers 0 with
      | none => (t.take maxLength, true)
      | some lastIdx =>
        if h : lastIdx + 1 < markers.length then
          (rstripL (t.take (markers.get ⟨lastIdx + 1, h⟩).position), true)
        else
          (rstripL t, false)

/-- Modelled from the spec: `ReviewResult` (spec section 3) — the per-chunk
review record `(chunkIndex, files, reviewText)` consumed by the ReviewMerger.
The ReviewMerger component itself is described in spec section 4.6 but is not
present under `src/`. -/
structure ReviewResult where
  chunkIndex : Nat
  files : List (List Char)
  reviewText : List Char
deriving DecidableEq, Repr

/-- Python `text.strip()`: remove leading and trailing whitespace. -/
def stripL (l : List Char) : List Char :=
  rstripL (l.dropWhile isPySpace)

/-- Decimal rendering of a natural number, for the merger's banner texts. -/
def natChars (n : Nat) : List Char := (Nat.repr n).data

/-- Interleave a separator between the elements of a list of strings. -/
def joinSep (sep : List Char) : List (List Char) → List Char
  | [] => []
  | [x] => x
  | x :: y :: xs => x ++ sep ++ joinSep sep (y :: xs)

/-- Ordering of review results by their originating chunk index. -/
def reviewLE (a b : ReviewResult) : Prop := a.chunkIndex ≤ b.chunkIndex

instance : DecidableRel reviewLE := fun a b => Nat.decLe a.chunkIndex b.chunkIndex

/-- Strict ordering of review results by chunk index, used to state uniqueness
of the sorted order. -/
def reviewLT (a b : ReviewResult) : Prop := a.chunkIndex < b.chunkIndex

instance : IsTotal ReviewResult reviewLE :=
  ⟨fun a b => Nat.le_total a.chunkIndex b.chunkIndex⟩

instance : IsTrans ReviewResult reviewLE :=
  ⟨fun _ _ _ h1 h2 => Nat.le_trans h1 h2⟩

instance : IsAntisymm ReviewResult reviewLT :=
  ⟨fun _ _ h1 h2 => absurd (Nat.lt_trans h1 h2) (Nat.lt_irrefl _)⟩

/-- Modelled from the spec: ReviewMerger's index ordering (spec section 4.6) —
results are emitted "strictly the chunk index order in which chunks were
created, not arrival order", so the merger sorts its input by `chunkIndex`. -/
def sortResults (l : List ReviewResult) : List ReviewResult :=
  l.insertionSort reviewLE

/-- Modelled from the spec: the part title of one merged review segment (spec
section 4.6) — lists up to the first three file paths, plus a "+K more files"
suffix when there are more. -/
def partTitle (r : ReviewResult) : List Char :=
  pyStr "### Part " ++ natChars (r.chunkIndex + 1) ++ pyStr ": " ++
  joinSep (pyStr ", ") (r.files.take 3) ++
  (if 3 < r.files.length then
    pyStr " +" ++ natChars (r.files.length - 3) ++ pyStr " more files"
  else []) ++ pyStr "\n\n"

/-- Modelled from the spec: the fixed merge header stating the review was split
into N parts (spec section 4.6). -/
def mergeHeader (n : Nat) : List Char :=
  pyStr "This review was split into " ++ natChars n ++ pyStr " parts.\n"

/-- Modelled from the spec: `ReviewMerger.merge` (spec section 4.6), absent from
`src/` — exactly one result is returned unchanged; several results are emitted
in chunk-index order, each preceded by a separator and a part title, after a
fixed header stating the review was split into N parts. -/
def merge : List ReviewResult → List Char
  | [r] => r.reviewText
  | rs =>
    mergeHeader rs.length ++
    ((sortResults rs).map fun r =>
      pyStr "\n---\n\n" ++ partTitle r ++ stripL r.reviewText).flatten

/-- Total number of characters accounted for by a list of lines, one separator
per line — the amount `current_pos` advances across the scanner loops. -/
def lineTotal (ls : List (List Char)) : Nat :=
  (ls.map fun l => l.length + 1).sum

/-- The per-file segments cut by the loop of `chunk_diff`: each file's slice
runs from its boundary position to the next boundary's position, the last one
to the end of the text. -/
def segments (t : List Char) : List FileBoundary → List (List Char)
  | [] => []
  | f :: rest => fileSlice t f rest :: segments t rest

/-- Offset of the first file boundary the scanner finds (0 if none). -/
def firstBoundaryPos (t : List Char) : Nat :=
  match extract_file_boundaries t with
  | [] => 0
  | b :: _ => b.position

/-- Concatenation of the contents of a list of chunks, in list order. -/
def chunkConcat (cs : List DiffChunk) : List Char :=
  (cs.map DiffChunk.content).flatten

/-- Whitespace-delimited tokens of a line: maximal nonempty runs of
non-whitespace characters (the reading of "whitespace-delimited token" in the
specification; Python's `str.split()` with no argument). -/
def wsTokensAux : List Char → List Char → List (List Char)
  | [], acc => if acc = [] then [] else [acc.reverse]
  | c :: cs, acc =>
    if isPySpace c then
      if acc = [] then wsTokensAux cs []
      else acc.reverse :: wsTokensAux cs []
    else wsTokensAux cs (c :: acc)

/-- Whitespace-delimited tokens of a line. -/
def wsTokens (l : List Char) : List (List Char) :=
  wsTokensAux l []

/-- The file path as described by the specification's words for the scanner:
the line's fourth whitespace-delimited token, with a leading `b/` stripped if
present; the sentinel `"unknown"` when that token is absent. Stated from the
claim's words, to be compared with the source's `extractPath`. -/
def specPathWs (line : List Char) : List Char :=
  let tok := (wsTokens line).getD 3 (pyStr "unknown")
  if (pyStr "b/").isPrefixOf tok then tok.drop 2 else tok

/-- A single well-formed diff delimiter line (18 characters). -/
def hdr : List Char := pyStr "diff --git a/f b/f"

/-- `k` delimiter lines joined by newlines, with no trailing newline
(`19 * k - 1` characters for `1 ≤ k`). -/
def hdrBlock : Nat → List Char
  | 0 => []
  | 1 => hdr
  | k + 2 => hdr ++ '\n' :: hdrBlock (k + 1)

/-- 30,020-character diff: 29,906 junk characters, a newline, then six
delimiter lines — six files and more than 30,000 characters, so `should_chunk`
holds; all file segments live in the short concrete tail. -/
def bigSix : List Char := List.replicate 29906 'x' ++ '\n' :: hdrBlock 6

/-- 30,001-character diff with exactly five files. -/
def fiveLong : List Char := List.replicate 29906 'x' ++ '\n' :: hdrBlock 5

/-- 29,999-character diff with exactly five files. -/
def fiveShort : List Char := List.replicate 29904 'x' ++ '\n' :: hdrBlock 5

/-- 100-character diff with exactly six files (six minimal delimiter lines). -/
def sixTiny : List Char :=
  pyStr "xxxxxxxxxxxxxxxxxxxxxxxxxxxx\ndiff --git \ndiff --git \ndiff --git \ndiff --git \ndiff --git \ndiff --git "

/-- A 41,000-character diff with two files: a delimiter line, a long junk line,
and a second delimiter line.  `should_chunk` is false (two files), so
`chunk_diff` returns it as one oversized two-file chunk. -/
def twoBig : List Char :=
  hdr ++ '\n' :: (List.replicate 40962 'x' ++ '\n' :: hdr)

/-- A 32-character one-file diff whose single file starts at offset 0; with a
budget of 20 the smart truncator keeps the whole text and reports no
truncation. -/
def exOneFile : List Char := pyStr "diff --git a/f b/f\n0123456789abc"

/-- A six-character diff with no delimiter lines at all. -/
def exNoMarkers : List Char := pyStr "abcdef"

/-- A one-character diff with no delimiter lines. -/
def exTiny : List Char := pyStr "x"

/-- A delimiter line whose path fields are separated by a double space. -/
def exDoubleSpace : List Char := pyStr "diff --git a/x  b/y"

/-! ### Sanity checks of the embedding against the Python semantics -/

theorem sanity_split : splitOnChar ' ' (pyStr "diff --git a/x b/y") =
    [pyStr "diff", pyStr "--git", pyStr "a/x", pyStr "b/y"] := by decide

theorem sanity_scanner : extract_file_boundaries (pyStr "diff --git a/x b/y\n+foo") =
    [⟨0, 0, pyStr "y"⟩] := by decide

theorem sanity_truncate :
    truncate_diff_smartly (pyStr "abcdef") 3 = (pyStr "abc", true) := by decide

/-! ### Splitting lemmas -/

theorem splitOnChar_ne_nil (c : Char) (t : List Char) : splitOnChar c t ≠ [] := by
  induction t with
  | nil => simp [splitOnChar]
  | cons x xs ih =>
    simp only [splitOnChar]
    by_cases h : x = c
    · simp [h]
    · simp only [h, if_false]
      cases hr : splitOnChar c xs with
      | nil => simp
      | cons y ys => simp

theorem splitOnChar_noSep {c : Char} {xs : List Char} (h : c ∉ xs) :
    splitOnChar c xs = [xs] := by
  induction xs with
  | nil => rfl
  | cons x xs ih =>
    have hx : ¬x = c := fun he => h (he ▸ List.mem_cons_self x xs)
    have hxs : c ∉ xs := fun hm => h (List.mem_cons_of_mem x hm)
    simp only [splitOnChar, hx, if_false, ih hxs]

theorem splitOnChar_append_cons {c : Char} {xs : List Char} (h : c ∉ xs) (ys : List Char) :
    splitOnChar c (xs ++ c :: ys) = xs :: splitOnChar c ys := by
  induction xs with
  | nil => simp [splitOnChar]
  | cons x xs ih =>
    have hx : ¬x = c := fun he => h (he ▸ List.mem_cons_self x xs)
    have hxs : c ∉ xs := fun hm => h (List.mem_cons_of_mem x hm)
    simp only [List.cons_append, splitOnChar, hx, if_false]
    rw [List.append_eq, ih hxs]

theorem splitOnChar_lineTotal (c : Char) (t : List Char) :
    lineTotal (splitOnChar c t) = t.length + 1 := by
  induction t with
  | nil => simp [splitOnChar, lineTotal]
  | cons x xs ih =>
    simp only [splitOnChar]
    by_cases h : x = c
    · simp only [h, if_true, lineTotal, List.map_cons, List.sum_cons] at ih ⊢
      simp only [List.length_nil, List.length_cons]
      omega
    · simp only [h, if_false]
      cases hr : splitOnChar c xs with
      | nil => exact absurd hr (splitOnChar_ne_nil c xs)
      | cons y ys =>
        rw [hr] at ih
        simp only [lineTotal, List.map_cons, List.sum_cons, List.length_cons] at ih ⊢
        omega

/-! ### Scanner position lemmas -/

theorem hdrPrefix_length : (pyStr "diff --git ").length = 11 := by decide

theorem extractBoundariesAux_mem_bounds :
    ∀ (ls : List (List Char)) (i pos : Nat), ∀ b ∈ extractBoundariesAux ls i pos,
      pos ≤ b.position ∧ b.position + 12 ≤ pos + lineTotal ls := by
  intro ls
  induction ls with
  | nil => intro i pos b hb; simp [extractBoundariesAux] at hb
  | cons l ls ih =>
    intro i pos b hb
    simp only [extractBoundariesAux] at hb
    by_cases hp : (pyStr "diff --git ").isPrefixOf l
    · rw [if_pos hp] at hb
      have hlen : 11 ≤ l.length := by
        have := (List.isPrefixOf_iff_prefix.mp hp).length_le
        rwa [hdrPrefix_length] at this
      rcases List.mem_cons.mp hb with hb | hb
      · subst hb
        refine ⟨Nat.le_refl _, ?_⟩
        simp only [lineTotal, List.map_cons, List.sum_cons]
        omega
      · have := ih (i + 1) (pos + l.length + 1) b hb
        simp only [lineTotal, List.map_cons, List.sum_cons] at this ⊢
        omega
    · rw [if_neg hp] at hb
      have := ih (i + 1) (pos + l.length + 1) b hb
      simp only [lineTotal, List.map_cons, List.sum_cons] at this ⊢
      omega

theorem extractBoundariesAux_pairwise :
    ∀ (ls : List (List Char)) (i pos : Nat),
      (extractBoundariesAux ls i pos).Pairwise
        (fun a b => a.position + 12 ≤ b.position) := by
  intro ls
  induction ls with
  | nil => intro i pos; simp [extractBoundariesAux]
  | cons l ls ih =>
    intro i pos
    simp only [extractBoundariesAux]
    by_cases hp : (pyStr "diff --git ").isPrefixOf l
    · rw [if_pos hp]
      refine List.Pairwise.cons ?_ (ih (i + 1) (pos + l.length + 1))
      intro b hb
      have hmem := extractBoundariesAux_mem_bounds ls (i + 1) (pos + l.length + 1) b hb
      have hlen : 11 ≤ l.length := by
        have := (List.isPrefixOf_iff_prefix.mp hp).length_le
        rwa [hdrPrefix_length] at this
      simp only
      omega
    · rw [if_neg hp]
      exact ih (i + 1) (pos + l.length + 1)

theorem extract_file_boundaries_bounds (t : List Char) :
    ∀ b ∈ extract_file_boundaries t, b.position + 11 ≤ t.length := by
  intro b hb
  have := extractBoundariesAux_mem_bounds (splitOnChar '\n' t) 0 0 b hb
  rw [splitOnChar_lineTotal] at this
  omega

theorem extract_file_boundaries_pairwise (t : List Char) :
    (extract_file_boundaries t).Pairwise (fun a b => a.position + 12 ≤ b.position) :=
  extractBoundariesAux_pairwise (splitOnChar '\n' t) 0 0

/-! ### Chunk concatenation lemmas -/

theorem segments_flatten (t : List Char) :
    ∀ (rest : List FileBoundary) (f : FileBoundary),
      (f :: rest).Pairwise (fun a b => a.position + 12 ≤ b.position) →
      (segments t (f :: rest)).flatten = t.drop f.position := by
  intro rest
  induction rest with
  | nil =>
    intro f _
    simp only [segments, fileSlice, nextEndPos, List.flatten_cons, List.flatten_nil,
      List.append_nil]
    exact List.take_of_length_le (by rw [List.length_drop])
  | cons g rest ih =>
    intro f hpw
    have hfg : f.position + 12 ≤ g.position :=
      (List.pairwise_cons.mp hpw).1 g (List.mem_cons_self g rest)
    have htail := (List.pairwise_cons.mp hpw).2
    show (fileSlice t f (g :: rest) :: segments t (g :: rest)).flatten = t.drop f.position
    rw [List.flatten_cons, ih g htail]
    simp only [fileSlice, nextEndPos]
    have : t.drop g.position = t.drop (f.position + (g.position - f.position)) := by
      congr 1
      omega
    rw [this, List.drop_take_append_drop]

theorem chunkLoop_contents (t : List Char) :
    ∀ (bs : List FileBoundary) (cur : List Char) (curFs : List (List Char)) (idx : Nat),
      ((chunkLoop t bs cur curFs idx).map DiffChunk.content).flatten
        = cur ++ (segments t bs).flatten := by
  intro bs
  induction bs with
  | nil =>
    intro cur curFs idx
    by_cases h : cur = []
    · simp [chunkLoop, h, segments]
    · simp [chunkLoop, h, segments]
  | cons f rest ih =>
    intro cur curFs idx
    show ((if cur ≠ [] ∧ 40000 < cur.length + (fileSlice t f rest).length then
        (⟨cur, curFs, idx, 0⟩ : DiffChunk) ::
          chunkLoop t rest (fileSlice t f rest) [f.file_path] (idx + 1)
      else
        chunkLoop t rest (cur ++ fileSlice t f rest) (curFs ++ [f.file_path]) idx).map
        DiffChunk.content).flatten = cur ++ (segments t (f :: rest)).flatten
    by_cases h : cur ≠ [] ∧ 40000 < cur.length + (fileSlice t f rest).length
    · rw [if_pos h]
      simp only [List.map_cons, List.flatten_cons]
      rw [ih]
      show cur ++ (fileSlice t f rest ++ (segments t rest).flatten)
        = cur ++ (segments t (f :: rest)).flatten
      rw [show segments t (f :: rest) = fileSlice t f rest :: segments t rest from rfl,
        List.flatten_cons]
    · rw [if_neg h]
      rw [ih]
      rw [show segments t (f :: rest) = fileSlice t f rest :: segments t rest from rfl,
        List.flatten_cons, List.append_assoc]

/-! ### Evaluation lemmas for the large concrete inputs -/

theorem nl_not_mem_hdr : '\n' ∉ hdr := by decide

theorem hdr_is_boundary : (pyStr "diff --git ").isPrefixOf hdr = true := by decide

theorem extractPath_hdr : extractPath hdr = pyStr "f" := by decide

theorem hdr_length : hdr.length = 18 := by decide

theorem nl_not_mem_replicate (m : Nat) : '\n' ∉ List.replicate m 'x' := by
  intro h
  rcases List.mem_replicate.mp h with ⟨-, h2⟩
  exact absurd h2 (by decide)

theorem not_prefix_replicate (m : Nat) :
    (pyStr "diff --git ").isPrefixOf (List.replicate m 'x') = false := by
  cases m with
  | zero => decide
  | succ n =>
    rw [List.replicate_succ,
      show pyStr "diff --git " = 'd' :: pyStr "iff --git " from by decide]
    show ('d' == 'x' && (pyStr "iff --git ").isPrefixOf (List.replicate n 'x')) = false
    rw [show ('d' == 'x') = false from by decide, Bool.false_and]

theorem split_hdrBlock : ∀ k, splitOnChar '\n' (hdrBlock (k + 1)) = List.replicate (k + 1) hdr := by
  intro k
  induction k with
  | zero =>
    show splitOnChar '\n' hdr = [hdr]
    exact splitOnChar_noSep nl_not_mem_hdr
  | succ n ih =>
    show splitOnChar '\n' (hdr ++ '\n' :: hdrBlock (n + 1)) = _
    rw [splitOnChar_append_cons nl_not_mem_hdr, ih]
    rfl

theorem aux_junk_skip (m : Nat) (ls : List (List Char)) (i pos : Nat) :
    extractBoundariesAux (List.replicate m 'x' :: ls) i pos
      = extractBoundariesAux ls (i + 1) (pos + m + 1) := by
  simp only [extractBoundariesAux, not_prefix_replicate, List.length_replicate]
  simp

theorem aux_hdr_step (k i pos : Nat) :
    extractBoundariesAux (List.replicate (k + 1) hdr) i pos
      = ⟨pos, i, pyStr "f"⟩ :: extractBoundariesAux (List.replicate k hdr) (i + 1) (pos + 19) := by
  rw [List.replicate_succ]
  simp only [extractBoundariesAux, hdr_is_boundary, extractPath_hdr, hdr_length]
  simp

theorem aux_hdr_length : ∀ (k i pos : Nat),
    (extractBoundariesAux (List.replicate k hdr) i pos).length = k := by
  intro k
  induction k with
  | zero => intro i pos; rfl
  | succ n ih =>
    intro i pos
    rw [aux_hdr_step, List.length_cons, ih]

theorem bigSix_lines :
    splitOnChar '\n' bigSix = List.replicate 29906 'x' :: List.replicate 6 hdr := by
  show splitOnChar '\n' (List.replicate 29906 'x' ++ '\n' :: hdrBlock 6) = _
  rw [splitOnChar_append_cons (nl_not_mem_replicate 29906),
    show (6 : Nat) = 5 + 1 from by norm_num, split_hdrBlock]

theorem extract_bigSix :
    extract_file_boundaries bigSix = extractBoundariesAux (List.replicate 6 hdr) 1 29907 := by
  rw [extract_file_boundaries, bigSix_lines, aux_junk_skip]

theorem extract_bigSix_length : (extract_file_boundaries bigSix).length = 6 := by
  rw [extract_bigSix, aux_hdr_length]

theorem firstBoundaryPos_bigSix : firstBoundaryPos bigSix = 29907 := by
  rw [firstBoundaryPos, extract_bigSix, show (6 : Nat) = 5 + 1 from by norm_num, aux_hdr_step]

theorem bigSix_length : bigSix.length = 30020 := by
  show (List.replicate 29906 'x' ++ '\n' :: hdrBlock 6).length = 30020
  rw [List.length_append, List.length_replicate, List.length_cons,
    show (hdrBlock 6).length = 113 from by decide]

theorem should_chunk_bigSix : should_chunk bigSix = true := by
  show (if (extract_file_boundaries bigSix).length ≤ 5 then false
    else if bigSix.length ≤ 30000 then false else true) = true
  rw [extract_bigSix_length, bigSix_length]
  norm_num

theorem fiveLong_lines :
    splitOnChar '\n' fiveLong = List.replicate 29906 'x' :: List.replicate 5 hdr := by
  show splitOnChar '\n' (List.replicate 29906 'x' ++ '\n' :: hdrBlock 5) = _
  rw [splitOnChar_append_cons (nl_not_mem_replicate 29906),
    show (5 : Nat) = 4 + 1 from by norm_num, split_hdrBlock]

theorem extract_fiveLong_length : (extract_file_boundaries fiveLong).length = 5 := by
  rw [extract_file_boundaries, fiveLong_lines, aux_junk_skip, aux_hdr_length]

theorem fiveLong_length : fiveLong.length = 30001 := by
  show (List.replicate 29906 'x' ++ '\n' :: hdrBlock 5).length = 30001
  rw [List.length_append, List.length_replicate, List.length_cons,
    show (hdrBlock 5).length = 94 from by decide]

theorem should_chunk_fiveLong : should_chunk fiveLong = false := by
  show (if (extract_file_boundaries fiveLong).length ≤ 5 then false
    else if fiveLong.length ≤ 30000 then false else true) = false
  rw [extract_fiveLong_length]
  norm_num

theorem fiveShort_lines :
    splitOnChar '\n' fiveShort = List.replicate 29904 'x' :: List.replicate 5 hdr := by
  show splitOnChar '\n' (List.replicate 29904 'x' ++ '\n' :: hdrBlock 5) = _
  rw [splitOnChar_append_cons (nl_not_mem_replicate 29904),
    show (5 : Nat) = 4 + 1 from by norm_num, split_hdrBlock]

theorem extract_fiveShort_length : (extract_file_boundaries fiveShort).length = 5 := by
  rw [extract_file_boundaries, fiveShort_lines, aux_junk_skip, aux_hdr_length]

theorem fiveShort_length : fiveShort.length = 29999 := by
  show (List.replicate 29904 'x' ++ '\n' :: hdrBlock 5).length = 29999
  rw [List.length_append, List.length_replicate, List.length_cons,
    show (hdrBlock 5).length = 94 from by decide]

theorem should_chunk_fiveShort : should_chunk fiveShort = false := by
  show (if (extract_file_boundaries fiveShort).length ≤ 5 then false
    else if fiveShort.length ≤ 30000 then false else true) = false
  rw [extract_fiveShort_length]
  norm_num

theorem twoBig_lines :
    splitOnChar '\n' twoBig = [hdr, List.replicate 40962 'x', hdr] := by
  show splitOnChar '\n' (hdr ++ '\n' :: (List.replicate 40962 'x' ++ '\n' :: hdr)) = _
  rw [splitOnChar_append_cons nl_not_mem_hdr,
    splitOnChar_append_cons (nl_not_mem_replicate 40962),
    splitOnChar_noSep nl_not_mem_hdr]

theorem aux_hdr_cons (ls : List (List Char)) (i pos : Nat) :
    extractBoundariesAux (hdr :: ls) i pos
      = ⟨pos, i, pyStr "f"⟩ :: extractBoundariesAux ls (i + 1) (pos + 19) := by
  show (if (pyStr "diff --git ").isPrefixOf hdr then
      (⟨pos, i, extractPath hdr⟩ : FileBoundary) ::
        extractBoundariesAux ls (i + 1) (pos + hdr.length + 1)
    else extractBoundariesAux ls (i + 1) (pos + hdr.length + 1)) = _
  rw [hdr_is_boundary, if_pos rfl, extractPath_hdr, hdr_length,
    show pos + 18 + 1 = pos + 19 from by omega]

theorem extract_twoBig :
    extract_file_boundaries twoBig = [⟨0, 0, pyStr "f"⟩, ⟨40982, 2, pyStr "f"⟩] := by
  rw [extract_file_boundaries, twoBig_lines, aux_hdr_cons, aux_junk_skip, aux_hdr_cons]
  norm_num
  rfl

theorem twoBig_length : twoBig.length = 41000 := by
  show (hdr ++ '\n' :: (List.replicate 40962 'x' ++ '\n' :: hdr)).length = 41000
  rw [List.length_append, List.length_cons, List.length_append, List.length_cons,
    List.length_replicate, hdr_length]

theorem should_chunk_twoBig : should_chunk twoBig = false := by
  show (if (extract_file_boundaries twoBig).length ≤ 5 then false
    else if twoBig.length ≤ 30000 then false else true) = false
  rw [extract_twoBig]
  norm_num

theorem chunk_diff_twoBig :
    chunk_diff twoBig = [⟨twoBig, [pyStr "f", pyStr "f"], 0, 1⟩] := by
  simp only [chunk_diff]
  rw [extract_twoBig, should_chunk_twoBig, if_neg (List.cons_ne_nil _ _), if_pos rfl]
  rfl

/-! ### Boundedness of multi-file chunks -/

theorem extract_ne_nil_of_should_chunk {t : List Char} (h : should_chunk t = true) :
    extract_file_boundaries t ≠ [] := by
  intro he
  simp only [should_chunk, he] at h
  simp at h

theorem chunk_diff_chunked {t : List Char} (h : should_chunk t = true) :
    chunk_diff t = (chunkLoop t (extract_file_boundaries t) [] [] 0).map
      (fun c => ⟨c.content, c.files, c.chunk_index,
        (chunkLoop t (extract_file_boundaries t) [] [] 0).length⟩) := by
  simp only [chunk_diff]
  rw [if_neg (extract_ne_nil_of_should_chunk h), if_neg (by rw [h]; simp)]

theorem chunkLoop_bounded (t : List Char) :
    ∀ (bs : List FileBoundary),
      (∀ b ∈ bs, b.position + 11 ≤ t.length) →
      bs.Pairwise (fun a b => a.position + 12 ≤ b.position) →
      ∀ (cur : List Char) (curFs : List (List Char)) (idx : Nat),
        (cur = [] ↔ curFs = []) →
        (curFs.length ≤ 1 ∨ cur.length ≤ 40000) →
        ∀ c ∈ chunkLoop t bs cur curFs idx,
          c.content.length ≤ 40000 ∨ c.files.length = 1 := by
  intro bs
  induction bs with
  | nil =>
    intro _ _ cur curFs idx hiff hinv c hc
    by_cases hcur : cur = []
    · simp [chunkLoop, hcur] at hc
    · simp only [chunkLoop, if_neg hcur] at hc
      rcases List.mem_singleton.mp hc with rfl
      rcases hinv with hfs | hcurlen
      · right
        have hne : curFs ≠ [] := fun hn => hcur (hiff.mpr hn)
        have hpos : 1 ≤ curFs.length := List.length_pos.mpr hne
        show curFs.length = 1
        omega
      · left
        exact hcurlen
  | cons f rest ih =>
    intro hmem hpw cur curFs idx hiff hinv c hc
    have hf : f.position + 11 ≤ t.length := hmem f (List.mem_cons_self f rest)
    have hslice : 1 ≤ (fileSlice t f rest).length := by
      cases rest with
      | nil =>
        simp only [fileSlice, nextEndPos, List.length_take, List.length_drop]
        omega
      | cons g rest2 =>
        have hg : f.position + 12 ≤ g.position :=
          (List.pairwise_cons.mp hpw).1 g (by simp)
        simp only [fileSlice, nextEndPos, List.length_take, List.length_drop]
        omega
    have hslice_ne : fileSlice t f rest ≠ [] := by
      intro hn
      rw [hn] at hslice
      simp at hslice
    have hmem2 : ∀ b ∈ rest, b.position + 11 ≤ t.length :=
      fun b hb => hmem b (List.mem_cons_of_mem f hb)
    have hpw2 := (List.pairwise_cons.mp hpw).2
    simp only [chunkLoop] at hc
    by_cases h : cur ≠ [] ∧ 40000 < cur.length + (fileSlice t f rest).length
    · rw [if_pos h] at hc
      rcases List.mem_cons.mp hc with rfl | hc2
      · rcases hinv with hfs | hcurlen
        · right
          have hne : curFs ≠ [] := fun hn => h.1 (hiff.mpr hn)
          have hpos : 1 ≤ curFs.length := List.length_pos.mpr hne
          show curFs.length = 1
          omega
        · left
          exact hcurlen
      · refine ih hmem2 hpw2 (fileSlice t f rest) [f.file_path] (idx + 1) ?_ ?_ c hc2
        · constructor
          · intro hn
            exact absurd hn hslice_ne
          · intro hn
            simp at hn
        · exact Or.inl (by simp)
    · rw [if_neg h] at hc
      refine ih hmem2 hpw2 (cur ++ fileSlice t f rest) (curFs ++ [f.file_path]) idx ?_ ?_ c hc
      · constructor
        · intro hn
          exact absurd (List.append_eq_nil.mp hn).2 hslice_ne
        · intro hn
          simp at hn
      · by_cases hcur : cur = []
        · refine Or.inl ?_
          have : curFs = [] := hiff.mp hcur
          simp [this]
        · refine Or.inr ?_
          have hsum : ¬40000 < cur.length + (fileSlice t f rest).length :=
            fun hlt => h ⟨hcur, hlt⟩
          rw [List.length_append]
          omega

/-! ### Characterization helpers -/

theorem should_chunk_false_iff (t : List Char) :
    should_chunk t = false ↔
      ((extract_file_boundaries t).length ≤ 5 ∨ t.length ≤ 30000) := by
  simp only [should_chunk]
  by_cases h1 : (extract_file_boundaries t).length ≤ 5
  · rw [if_pos h1]
    simp [h1]
  · rw [if_neg h1]
    by_cases h2 : t.length ≤ 30000
    · rw [if_pos h2]
      simp [h1, h2]
    · rw [if_neg h2]
      simp [h1, h2]

theorem chunkConcat_characterization (t : List Char) :
    chunkConcat (chunk_diff t)
      = if should_chunk t = true then t.drop (firstBoundaryPos t) else t := by
  by_cases h : should_chunk t = true
  · rw [if_pos h, chunk_diff_chunked h]
    have hmm : (((chunkLoop t (extract_file_boundaries t) [] [] 0).map
        (fun c => (⟨c.content, c.files, c.chunk_index,
          (chunkLoop t (extract_file_boundaries t) [] [] 0).length⟩ : DiffChunk))).map
          DiffChunk.content)
        = ((chunkLoop t (extract_file_boundaries t) [] [] 0).map DiffChunk.content) := by
      rw [List.map_map]
      rfl
    rw [chunkConcat, hmm, chunkLoop_contents, List.nil_append]
    obtain ⟨b, rest, hbs⟩ : ∃ b rest, extract_file_boundaries t = b :: rest := by
      cases hbs : extract_file_boundaries t with
      | nil => exact absurd hbs (extract_ne_nil_of_should_chunk h)
      | cons b rest => exact ⟨b, rest, rfl⟩
    rw [hbs, segments_flatten t rest b (hbs ▸ extract_file_boundaries_pairwise t),
      firstBoundaryPos, hbs]
  · rw [if_neg h]
    have hb : should_chunk t = false := by
      revert h
      cases should_chunk t <;> simp
    by_cases he : extract_file_boundaries t = []
    · simp only [chunk_diff]
      rw [if_pos he]
      simp [chunkConcat]
    · simp only [chunk_diff]
      rw [if_neg he, if_pos hb]
      simp [chunkConcat]

theorem aux_map_file_path :
    ∀ (ls : List (List Char)) (i pos : Nat),
      (extractBoundariesAux ls i pos).map FileBoundary.file_path
        = (ls.filter (fun l => (pyStr "diff --git ").isPrefixOf l)).map extractPath := by
  intro ls
  induction ls with
  | nil => intro i pos; rfl
  | cons l ls ih =>
    intro i pos
    simp only [extractBoundariesAux, List.filter_cons]
    by_cases hp : (pyStr "diff --git ").isPrefixOf l
    · rw [if_pos hp, if_pos hp, List.map_cons, List.map_cons, ih]
    · rw [if_neg hp, if_neg hp, ih]

theorem lastCompleteIdx_of_lastFits (n : Nat) :
    ∀ (ms : List FileBoundary) (i : Nat) (h : ms ≠ []),
      (ms.getLast h).position < n →
      lastCompleteIdx n ms i = some (i + (ms.length - 1)) := by
  intro ms
  induction ms with
  | nil => intro i h; exact absurd rfl h
  | cons m tail ih =>
    intro i h hlt
    cases tail with
    | nil =>
      show (if m.position < n then some i else none) = some (i + 0)
      rw [if_pos (by simpa using hlt)]
      rfl
    | cons m2 tail2 =>
      have htail : (m2 :: tail2) ≠ [] := List.cons_ne_nil m2 tail2
      have hlast : ((m2 :: tail2).getLast htail).position < n := by
        rwa [List.getLast_cons htail] at hlt
      show (match lastCompleteIdx n (m2 :: tail2) (i + 1) with
        | some j => some j
        | none => if m2.position ≤ n then some i else none) = _
      rw [ih (i + 1) htail hlast]
      show some (i + 1 + ((m2 :: tail2).length - 1))
        = some (i + ((m :: m2 :: tail2).length - 1))
      congr 1
      simp only [List.length_cons]
      omega

/-! ### Merger ordering lemmas -/

theorem sortResults_perm (l : List ReviewResult) : (sortResults l).Perm l :=
  List.perm_insertionSort reviewLE l

theorem sortResults_sorted (l : List ReviewResult) : (sortResults l).Sorted reviewLE :=
  List.sorted_insertionSort reviewLE l

theorem sortResults_pairwise_lt {l : List ReviewResult}
    (hnd : (l.map ReviewResult.chunkIndex).Nodup) :
    (sortResults l).Pairwise reviewLT := by
  have hmap : ((sortResults l).map ReviewResult.chunkIndex).Nodup :=
    (List.Perm.map ReviewResult.chunkIndex (sortResults_perm l)).symm.nodup hnd
  have hne : (sortResults l).Pairwise (fun a b => a.chunkIndex ≠ b.chunkIndex) :=
    List.pairwise_map.mp hmap
  have hle : (sortResults l).Pairwise reviewLE := sortResults_sorted l
  exact (hle.and hne).imp fun h => Nat.lt_of_le_of_ne h.1 h.2

theorem sortResults_eq_of_perm {l l2 : List ReviewResult} (hp : l.Perm l2)
    (hnd : (l.map ReviewResult.chunkIndex).Nodup) :
    sortResults l = sortResults l2 := by
  have hnd2 : (l2.map ReviewResult.chunkIndex).Nodup :=
    (List.Perm.map ReviewResult.chunkIndex hp).nodup hnd
  have hperm : (sortResults l).Perm (sortResults l2) :=
    (sortResults_perm l).trans (hp.trans (sortResults_perm l2).symm)
  exact List.eq_of_perm_of_sorted hperm
    (sortResults_pairwise_lt hnd) (sortResults_pairwise_lt hnd2)

theorem merge_perm {l l2 : List ReviewResult} (hp : l.Perm l2)
    (hnd : (l.map ReviewResult.chunkIndex).Nodup) : merge l = merge l2 := by
  cases l with
  | nil =>
    rw [hp.symm.eq_nil]
  | cons a tail =>
    cases tail with
    | nil =>
      rw [List.singleton_perm.mp hp]
    | cons b tl =>
      cases l2 with
      | nil =>
        have := hp.length_eq
        simp at this
      | cons a2 tl2 =>
        cases tl2 with
        | nil =>
          have := hp.length_eq
          simp at this
        | cons b2 tl3 =>
          show mergeHeader (a :: b :: tl).length ++
              ((sortResults (a :: b :: tl)).map fun r =>
                pyStr "\n---\n\n" ++ partTitle r ++ stripL r.reviewText).flatten
            = mergeHeader (a2 :: b2 :: tl3).length ++
              ((sortResults (a2 :: b2 :: tl3)).map fun r =>
                pyStr "\n---\n\n" ++ partTitle r ++ stripL r.reviewText).flatten
          rw [hp.length_eq, sortResults_eq_of_perm hp hnd]

/-! ### Truncation characterization -/

theorem truncate_characterization (t : List Char) (n : Nat) :
    truncate_diff_smartly t n = (t, false) ∨
    truncate_diff_smartly t n = (t.take n, true) ∨
    (∃ p, (p = t.length ∨ ∃ b ∈ file_markers t, b.position = p) ∧
      (truncate_diff_smartly t n).1 = rstripL (t.take p)) := by
  by_cases h1 : t.length ≤ n
  · refine Or.inl ?_
    simp only [truncate_diff_smartly]
    rw [if_pos h1]
  · simp only [truncate_diff_smartly]
    rw [if_neg h1]
    by_cases hm : file_markers t = []
    · refine Or.inr (Or.inl ?_)
      rw [if_pos hm]
    · rw [if_neg hm]
      cases hl : lastCompleteIdx n (file_markers t) 0 with
      | none =>
        exact Or.inr (Or.inl rfl)
      | some lastIdx =>
        by_cases hlt : lastIdx + 1 < (file_markers t).length
        · refine Or.inr (Or.inr ⟨((file_markers t).get ⟨lastIdx + 1, hlt⟩).position,
            Or.inr ⟨(file_markers t).get ⟨lastIdx + 1, hlt⟩,
              List.get_mem _ _ _, rfl⟩, ?_⟩)
          show (if h : lastIdx + 1 < (file_markers t).length then
              (rstripL (List.take ((file_markers t).get ⟨lastIdx + 1, h⟩).position t), true)
            else (rstripL t, false)).1 = _
          rw [dif_pos hlt]
        · refine Or.inr (Or.inr ⟨t.length, Or.inl rfl, ?_⟩)
          show (if h : lastIdx + 1 < (file_markers t).length then
              (rstripL (List.take ((file_markers t).get ⟨lastIdx + 1, h⟩).position t), true)
            else (rstripL t, false)).1 = rstripL (List.take t.length t)
          rw [dif_neg hlt, List.take_length]

/-! ### Claims -/

/-- Claim C1, counterexample: for the 30,020-character six-file diff `bigSix`,
whose first delimiter line is preceded by 29,907 characters of non-diff text,
concatenating the contents of the chunks returned by `chunk_diff` does not
reproduce the input — the chunked path starts at the first file boundary and
drops everything before it. -/
theorem C1_counterexample : chunkConcat (chunk_diff bigSix) ≠ bigSix := by
  have h := chunkConcat_characterization bigSix
  rw [if_pos should_chunk_bigSix, firstBoundaryPos_bigSix] at h
  rw [h]
  intro he
  have hlen : (bigSix.drop 29907).length = bigSix.length := by rw [he]
  rw [List.length_drop, bigSix_length] at hlen
  omega

/-- Claim C1 (amended): concatenating the contents of all chunks returned by
`chunk_diff`, in chunk-index order, reproduces the original diff text exactly
whenever the single-chunk path is taken; in chunked mode it reproduces exactly
the suffix of the diff starting at the first file boundary's offset (so the
round trip is byte-for-byte exact precisely when nothing precedes the first
`diff --git ` line, in particular for every diff that starts with one). -/
theorem C1_concat_amended (t : List Char) :
    chunkConcat (chunk_diff t)
      = if should_chunk t = true then t.drop (firstBoundaryPos t) else t :=
  chunkConcat_characterization t

/-- Claim C2, counterexample: on the six-character marker-free diff `"abcdef"`
with budget 3, `_truncate_diff_smartly` returns the raw three-character prefix,
whose length (3) is neither the original length (6) nor the offset of any
FileBoundary (the scanner finds none), so the truncated text can end mid-file. -/
theorem C2_counterexample :
    truncate_diff_smartly exNoMarkers 3 = (pyStr "abc", true) ∧
    file_markers exNoMarkers = [] ∧
    exNoMarkers.length = 6 ∧ (pyStr "abc").length = 3 := by decide

/-- Claim C2 (amended): `_truncate_diff_smartly` never returns text ending
mid-file except through its raw fallback: the result is either the unmodified
input (when within budget), the raw prefix of length `maxLength` (when the
scanner finds no boundary, or when no file fits under the budget), or the
prefix of the input cut exactly at some FileBoundary offset or at the document
end, with trailing whitespace then trimmed. -/
theorem C2_truncation_amended (t : List Char) (n : Nat) :
    truncate_diff_smartly t n = (t, false) ∨
    truncate_diff_smartly t n = (t.take n, true) ∨
    (∃ p, (p = t.length ∨ ∃ b ∈ file_markers t, b.position = p) ∧
      (truncate_diff_smartly t n).1 = rstripL (t.take p)) :=
  truncate_characterization t n

/-- Claim C3: `should_chunk` returns false exactly when the scanner finds at
most 5 file boundaries or the diff text has at most 30,000 characters, and
returns true otherwise. -/
theorem C3_policy (t : List Char) :
    should_chunk t = false ↔
      ((extract_file_boundaries t).length ≤ 5 ∨ t.length ≤ 30000) :=
  should_chunk_false_iff t

/-- Claim C4, counterexample: `fiveLong` has exactly 5 file boundaries and
30,001 characters, yet `should_chunk` returns false (the claim asserts it
returns true) — with at most five files the file-count test short-circuits
before length is consulted. -/
theorem C4_counterexample :
    (extract_file_boundaries fiveLong).length = 5 ∧
    fiveLong.length = 30001 ∧
    should_chunk fiveLong = false :=
  ⟨extract_fiveLong_length, fiveLong_length, should_chunk_fiveLong⟩

/-- Claim C4 (amended): `should_chunk` returns false for a diff with exactly 5
files and 30,001 characters, false for 5 files and 29,999 characters, and
false for 6 files and 100 characters; chunking triggers only when the file
count exceeds 5 AND the length exceeds 30,000, as on a six-file 30,020
character diff. -/
theorem C4_thresholds_amended :
    ((extract_file_boundaries fiveLong).length = 5 ∧ fiveLong.length = 30001 ∧
      should_chunk fiveLong = false) ∧
    ((extract_file_boundaries fiveShort).length = 5 ∧ fiveShort.length = 29999 ∧
      should_chunk fiveShort = false) ∧
    ((extract_file_boundaries sixTiny).length = 6 ∧ sixTiny.length = 100 ∧
      should_chunk sixTiny = false) ∧
    ((extract_file_boundaries bigSix).length = 6 ∧ bigSix.length = 30020 ∧
      should_chunk bigSix = true) :=
  ⟨⟨extract_fiveLong_length, fiveLong_length, should_chunk_fiveLong⟩,
   ⟨extract_fiveShort_length, fiveShort_length, should_chunk_fiveShort⟩,
   ⟨by decide, by decide, by decide⟩,
   ⟨extract_bigSix_length, bigSix_length, should_chunk_bigSix⟩⟩

/-- Claim C5, counterexample: the two-file 41,000-character diff `twoBig` is
below the file-count threshold, so `chunk_diff` returns a single chunk whose
content exceeds 40,000 characters yet contains two files — the 40,000-character
bound only constrains the chunked path, not every chunk `chunk_diff` produces. -/
theorem C5_counterexample :
    chunk_diff twoBig = [⟨twoBig, [pyStr "f", pyStr "f"], 0, 1⟩] ∧
    40000 < twoBig.length ∧
    ([pyStr "f", pyStr "f"] : List (List Char)).length ≠ 1 :=
  ⟨chunk_diff_twoBig, by rw [twoBig_length]; omega, by simp⟩

/-- Claim C5 (amended): in chunked mode (`should_chunk` true), every chunk
produced by `chunk_diff` either has content of at most 40,000 characters or
contains exactly one file: a running chunk is closed before a file's segment is
appended whenever it is nonempty and the combined length would exceed 40,000,
and a single file's segment is always appended whole. -/
theorem C5_chunk_bound_amended (t : List Char) (h : should_chunk t = true) :
    (chunk_diff t).all
      (fun c => decide (c.content.length ≤ 40000) || decide (c.files.length = 1)) = true := by
  rw [chunk_diff_chunked h, List.all_eq_true]
  intro c hc
  rcases List.mem_map.mp hc with ⟨c2, hc2, rfl⟩
  have hb := chunkLoop_bounded t (extract_file_boundaries t)
    (extract_file_boundaries_bounds t) (extract_file_boundaries_pairwise t)
    [] [] 0 (by simp) (Or.inl (by simp)) c2 hc2
  simp only [Bool.or_eq_true, decide_eq_true_eq]
  exact hb

/-- Witness for C5: the six-file 30,020-character diff `bigSix` is in chunked
mode and every chunk `chunk_diff` produces for it satisfies the bound. -/
theorem C5_witness :
    should_chunk bigSix = true ∧
    (chunk_diff bigSix).all
      (fun c => decide (c.content.length ≤ 40000) || decide (c.files.length = 1)) = true :=
  ⟨should_chunk_bigSix, C5_chunk_bound_amended bigSix should_chunk_bigSix⟩

/-- Claim C6, counterexample: the one-character diff `"x"` is under both
thresholds and `should_chunk` is false, but the single chunk `chunk_diff`
returns carries the sentinel file list `["unknown"]`, not the scanner's (empty)
ordered file-path list. -/
theorem C6_counterexample :
    should_chunk exTiny = false ∧
    (extract_file_boundaries exTiny).map FileBoundary.file_path = [] ∧
    chunk_diff exTiny = [⟨exTiny, [pyStr "unknown"], 0, 1⟩] ∧
    [pyStr "unknown"] ≠ ([] : List (List Char)) := by decide

/-- Claim C6 (amended): for diffs under both thresholds in which the scanner
finds at least one boundary, `chunk_diff` returns exactly one chunk whose
content equals the input diff text and whose files list equals the scanner's
full ordered file-path list. -/
theorem C6_single_chunk_amended (t : List Char)
    (h5 : (extract_file_boundaries t).length ≤ 5) (_h30 : t.length ≤ 30000)
    (hne : extract_file_boundaries t ≠ []) :
    chunk_diff t = [⟨t, (extract_file_boundaries t).map FileBoundary.file_path, 0, 1⟩] := by
  have hsc : should_chunk t = false := (should_chunk_false_iff t).mpr (Or.inl h5)
  simp only [chunk_diff]
  rw [if_neg hne, if_pos hsc]

/-- Witness for C6: a single delimiter-line diff is under both thresholds, has
one boundary, and `chunk_diff` returns one chunk listing that file. -/
theorem C6_witness :
    chunk_diff hdr = [⟨hdr, (extract_file_boundaries hdr).map FileBoundary.file_path, 0, 1⟩] :=
  C6_single_chunk_amended hdr (by decide) (by decide) (by decide)

/-- Claim C7: whenever the scanner finds no file boundary, `chunk_diff` returns
exactly one chunk whose content is the entire input text and whose files list
is exactly `["unknown"]`. -/
theorem C7_no_boundaries (t : List Char) (h : extract_file_boundaries t = []) :
    chunk_diff t = [⟨t, [pyStr "unknown"], 0, 1⟩] := by
  simp only [chunk_diff]
  rw [if_pos h]

/-- Witness for C7: the empty diff has no boundaries and yields the single
chunk with empty content and files `["unknown"]`. -/
theorem C7_witness :
    chunk_diff ([] : List Char) = [⟨[], [pyStr "unknown"], 0, 1⟩] :=
  C7_no_boundaries [] (by decide)

/-- Claim C8, counterexample: on the delimiter line `"diff --git a/x  b/y"`
(two spaces before `b/y`) the scanner records the empty path — the fourth field
of the single-space split is the empty string — while the line's fourth
whitespace-delimited token is `b/y`, which would give `y`. -/
theorem C8_counterexample :
    extract_file_boundaries exDoubleSpace = [⟨0, 0, []⟩] ∧
    specPathWs exDoubleSpace = pyStr "y" ∧
    ([] : List Char) ≠ pyStr "y" := by decide

/-- Claim C8 (amended): for every line of the diff that begins with the literal
prefix `diff --git `, the scanner records as that file's path the line's fourth
field when the line is split on single space characters (empty fields kept),
with a leading `b/` stripped if present, and the sentinel `"unknown"` when
fewer than four such fields exist — the per-line extraction `extractPath`. -/
theorem C8_scanner_path_amended (t : List Char) :
    (extract_file_boundaries t).map FileBoundary.file_path
      = ((splitOnChar '\n' t).filter
          (fun l => (pyStr "diff --git ").isPrefixOf l)).map extractPath :=
  aux_map_file_path (splitOnChar '\n' t) 0 0

/-- Claim C9: the merger returns a single result's review text unchanged, its
output is invariant under permutation of the input sequence (distinct chunk
indices), and the emitted parts are ordered by chunk index. -/
theorem C9_merge_order :
    (∀ r : ReviewResult, merge [r] = r.reviewText) ∧
    (∀ l l2 : List ReviewResult, l.Perm l2 →
      (l.map ReviewResult.chunkIndex).Nodup → merge l = merge l2) ∧
    (∀ l : List ReviewResult,
      ((sortResults l).map ReviewResult.chunkIndex).Sorted (· ≤ ·)) := by
  refine ⟨fun r => rfl, fun l l2 hp hnd => merge_perm hp hnd, fun l => ?_⟩
  exact List.Pairwise.map ReviewResult.chunkIndex (fun _ _ h => h) (sortResults_sorted l)

/-- Witness for C9: a singleton merge is returned unchanged, and arrival order
`[2, 0, 1]` merges identically to index order `[0, 1, 2]`. -/
theorem C9_witness :
    merge [⟨0, [], pyStr "ok"⟩] = pyStr "ok" ∧
    merge [⟨2, [], pyStr "c"⟩, ⟨0, [], pyStr "a"⟩, ⟨1, [], pyStr "b"⟩]
      = merge [⟨0, [], pyStr "a"⟩, ⟨1, [], pyStr "b"⟩, ⟨2, [], pyStr "c"⟩] :=
  ⟨C9_merge_order.1 ⟨0, [], pyStr "ok"⟩,
   C9_merge_order.2.1 _ _ (by decide) (by decide)⟩

/-- Claim C10: the smart truncator's result can exceed the budget — the
32-character one-file diff with budget 20 is returned whole with
`wasTruncated = false` — and in general whenever the final file's boundary
offset is below the budget the cut position is the document end, so the whole
diff (trailing whitespace trimmed) is returned. -/
theorem C10_truncation_overrun :
    (20 < exOneFile.length ∧ truncate_diff_smartly exOneFile 20 = (exOneFile, false)) ∧
    (∀ (t : List Char) (n : Nat), n < t.length → ∀ h : file_markers t ≠ [],
      ((file_markers t).getLast h).position < n →
      truncate_diff_smartly t n = (rstripL t, false)) := by
  refine ⟨⟨by decide, by decide⟩, fun t n hlen h hpos => ?_⟩
  simp only [truncate_diff_smartly]
  rw [if_neg (by omega), if_neg h,
    lastCompleteIdx_of_lastFits n (file_markers t) 0 h hpos]
  have hlen1 : 1 ≤ (file_markers t).length := List.length_pos.mpr h
  show (if hx : 0 + ((file_markers t).length - 1) + 1 < (file_markers t).length then
      (rstripL (List.take
        ((file_markers t).get ⟨0 + ((file_markers t).length - 1) + 1, hx⟩).position t), true)
    else (rstripL t, false)) = (rstripL t, false)
  rw [dif_neg (by omega)]

/-- Witness for C10: applying the general overrun statement to the concrete
one-file diff and budget 20. -/
theorem C10_witness :
    truncate_diff_smartly exOneFile 20 = (rstripL exOneFile, false) :=
  C10_truncation_overrun.2 exOneFile 20 (by decide) (by decide) (by decide)
